import Mathlib

/-!
Verification of the EPUB word-count tool (`src/main.rs`) against its
natural-language specification.

The development shallowly embeds the program's pure core:

* `split_vec` — the task partitioner (`fn split_vec`, main.rs:141-157);
* `isUnicodeWhitespace`, `splitWhitespace`, `html_word_count` — the
  whitespace-removal counting pipeline (`fn html_word_count`, main.rs:88-99);
  HTML text-node extraction is performed by the external `scraper` crate, so
  the embedding takes the extracted text as input;
* `zip_xhtml_read`, `get_epub_word_count` — the archive entry filter and the
  per-file counting (`fn zip_xhtml_read`, main.rs:102-127 and
  `fn get_epub_word_count`, main.rs:129-138); the external `zip` crate is
  abstracted as a list of named entries, and the `expect(..)` panics of the
  source are embedded as `Option.none` (a panic aborts, it returns no value);
* `workerRun`, `runBatch`, `mainRun` — the scheduler and aggregation loop of
  `fn main` (main.rs:172-255).
-/

/-! ## Work partitioning: `split_vec` (main.rs:141-157)

The Rust source:

```
fn split_vec<T>(mut vec: Vec<T>, n: usize) -> Vec<Vec<T>> \x7b
    if n == 0 || vec.is_empty() \x7b
        return vec![vec];
    \x7d
    let len = vec.len();
    let chunk_size = (len + n - 1) / n;
    let mut result = Vec::new();
    while !vec.is_empty() \x7b
        let take = chunk_size.min(vec.len());
        let chunk = vec.drain(..take).collect::<Vec<T>>();
        result.push(chunk);
    \x7d
    result
\x7d
```

The while loop is embedded as `splitVecGo` with an explicit fuel argument so
that the definition is structurally recursive (and hence evaluable by the
kernel).  At the single call site the fuel is the length of the vector, which
suffices because there `chunk_size ≥ 1`, so every iteration removes at least
one element; `splitVecGo_join` below holds for every fuel, so no behaviour of
the source is lost by the fuel bound.
-/

def splitVecGo (chunkSize : Nat) : Nat → List α → List (List α)
  | _, [] => []
  | 0, v => [v]
  | fuel + 1, v =>
      let tk := min chunkSize v.length
      v.take tk :: splitVecGo chunkSize fuel (v.drop tk)

def split_vec (v : List α) (n : Nat) : List (List α) :=
  if n = 0 ∨ v.length = 0 then [v]
  else splitVecGo ((v.length + n - 1) / n) v.length v

/-! ## Text extraction and counting: `html_word_count` (main.rs:88-99)

The Rust source:

```
fn html_word_count(string: &String) -> u64
\x7b
    Html::parse_document(string)
        .root_element()
        .text()
        .collect::<String>()
        .split_whitespace()
        .collect::<Vec<_>>()
        .join("")
        .chars()
        .count() as u64
\x7d
```

`Html::parse_document(..).root_element().text().collect::<String>()` is the
external `scraper` crate: it parses the markup and concatenates the text nodes
under the root element in document order.  The embedding therefore takes that
extracted text (a list of Unicode scalar values) as its input and models the
remainder of the pipeline: `split_whitespace()` (split on Unicode whitespace,
yielding no empty tokens), `join("")` (concatenate the tokens with no
separator) and `chars().count()` (count Unicode scalar values). -/

/-- The Unicode `White_Space` property, the separator set of Rust's
`str::split_whitespace`. -/
def isUnicodeWhitespace (c : Char) : Bool :=
  c.toNat = 0x09 || c.toNat = 0x0A || c.toNat = 0x0B || c.toNat = 0x0C ||
    c.toNat = 0x0D || c.toNat = 0x20 || c.toNat = 0x85 || c.toNat = 0xA0 ||
    c.toNat = 0x1680 || (0x2000 ≤ c.toNat && c.toNat ≤ 0x200A) ||
    c.toNat = 0x2028 || c.toNat = 0x2029 || c.toNat = 0x202F ||
    c.toNat = 0x205F || c.toNat = 0x3000

/-- Accumulator-passing splitter behind `splitWhitespace`: `acc` holds the
characters of the token currently being read, in reverse. -/
def splitWsAux (acc : List Char) : List Char → List (List Char)
  | [] => if acc = [] then [] else [acc.reverse]
  | c :: cs =>
      if isUnicodeWhitespace c then
        (if acc = [] then [] else [acc.reverse]) ++ splitWsAux [] cs
      else
        splitWsAux (c :: acc) cs

/-- `str::split_whitespace`: the maximal whitespace-free tokens of the text,
in order; whitespace separators are discarded and no token is empty. -/
def splitWhitespace (s : List Char) : List (List Char) :=
  splitWsAux [] s

/-- `split_whitespace().collect::<Vec<_>>().join("")` — the text with all
Unicode whitespace removed. -/
def removeWhitespace (s : List Char) : List Char :=
  (splitWhitespace s).flatten

/-- `html_word_count`, applied to the text that the `scraper` crate extracts
from the document's markup: the number of Unicode scalar values left after
removing all whitespace. -/
def html_word_count (extractedText : List Char) : Nat :=
  (removeWhitespace extractedText).length

/-! ## Archive content extraction: `zip_xhtml_read` (main.rs:102-127)

The Rust source:

```
fn zip_xhtml_read<W: Read + Seek>(file: W) -> Vec<String> \x7b
    let mut zip = ZipArchive::new(file).expect("读取zip文件时出现错误");
    let n = zip.len();
    let mut results = Vec::new();
    for i in 0..n \x7b
        let mut file = zip.by_index(i).expect("遍历zip文件列表时出现错误");
        let name = file.name();
        if !(name.ends_with(".xhtml") || name.ends_with(".html")) \x7b
            continue;
        \x7d
        if name == "toc.xhtml" || name == "toc.html" \x7b
            continue;
        \x7d
        let size = file.size();
        let mut content = String::with_capacity(size as usize);
        file.read_to_string(&mut content).expect("读取xhtml文件时出现错误");
        results.push(content);
    \x7d
    results
\x7d
```

The external `zip` crate is abstracted as a list of named entries in central
directory order, with an `invalid` case for byte streams that are not a valid
archive (on which `ZipArchive::new(..)` returns `Err` and the `expect` call
panics).  A panic aborts the computation and returns no value, so the
embedding gives `zip_xhtml_read` the type `Archive → Option _`, with `none`
for a panic: `Archive.invalid` panics at `ZipArchive::new`, and an entry whose
bytes do not decode as UTF-8 (`decodes = false`) panics at `read_to_string`.
An entry's `content` carries the document's extracted visible text (the HTML
parse and text-node walk being the external `scraper` crate, see
`html_word_count` above). -/

structure ZipEntry where
  name : String
  decodes : Bool
  content : List Char
deriving DecidableEq

inductive Archive where
  | invalid
  | entries (es : List ZipEntry)
deriving DecidableEq

def strEndsWith (s suffix : String) : Bool :=
  suffix.data.isSuffixOf s.data

/-- The two `continue` guards of the entry loop, combined: an entry is read
exactly when its name ends in `.xhtml` or `.html` and the (full) name is not
`toc.xhtml` or `toc.html`. -/
def entryMatches (name : String) : Bool :=
  (strEndsWith name ".xhtml" || strEndsWith name ".html") &&
    !(name == "toc.xhtml" || name == "toc.html")

/-- The entry loop of `zip_xhtml_read`: skip non-matching names, panic
(`none`) on an entry that fails to decode, collect the rest in order. -/
def readEntries : List ZipEntry → Option (List (List Char))
  | [] => some []
  | e :: rest =>
      if entryMatches e.name then
        if e.decodes then (readEntries rest).map (fun l => e.content :: l)
        else none
      else readEntries rest

def zip_xhtml_read : Archive → Option (List (List Char))
  | .invalid => none
  | .entries es => readEntries es

/-- `get_epub_word_count` (main.rs:129-138): sum of `html_word_count` over the
documents that `zip_xhtml_read` returns, `none` when that call panicked. -/
def get_epub_word_count (a : Archive) : Option Nat :=
  (zip_xhtml_read a).map (fun docs => (docs.map html_word_count).sum)

/-- The component after the last `/` of an entry path. -/
def baseName (name : String) : String :=
  String.mk ((name.data.reverse.takeWhile (fun c => c != '/')).reverse)

/-- The content-matching filter as claim C2 words it: the toc exclusion tests
the base name of the entry, regardless of any directory prefix in the path. -/
def entryMatchesByBaseName (name : String) : Bool :=
  (strEndsWith name ".xhtml" || strEndsWith name ".html") &&
    !(baseName name == "toc.xhtml" || baseName name == "toc.html")

/-! ## Scheduler and aggregation: `main` (main.rs:172-255)

After discovery (`args.files` / `get_all_epub_walkdir`, external
collaborators), `main` holds a list of `FileData \x7b filename, file \x7d` tasks.
If it is empty it prints `没有找到任何EPUB文件` to stderr and calls `exit(0)`
— before any total line is printed.  Otherwise it spawns one thread per chunk
of `split_vec(epub_renders, args.cpu_nums)`; each thread maps its chunk
through `get_epub_word_count` in order; `main` then joins the handles in
spawn order with `handle.join().unwrap()`, printing each `FileWordCount` and
accumulating `total_word_count`, and finally prints the total.  A panic
inside a worker (invalid archive, undecodable entry) makes `join()` return
`Err`, so the `unwrap()` re-raises the panic in the main thread and the
process aborts with a non-zero exit code.  The embedding keeps each task's
archive contents in the task (the byte source resolution being external I/O)
and models a panic anywhere in this pipeline as `none` / `panicAbort`. -/

structure FileTask where
  filename : String
  archive : Archive
deriving DecidableEq

structure FileWordCount where
  filename : String
  word_count : Nat
deriving DecidableEq

/-- One worker thread's closure (main.rs:234-245): process the chunk's files
strictly sequentially; a panic while processing any file kills the thread, so
the thread produces no result list at all (`none`). -/
def workerRun : List FileTask → Option (List FileWordCount)
  | [] => some []
  | f :: rest =>
      match get_epub_word_count f.archive with
      | none => none
      | some c => (workerRun rest).map (fun infos => ⟨f.filename, c⟩ :: infos)

/-- The join loop of `main` (main.rs:247-253): handles are joined in spawn
order and `join().unwrap()` re-raises the first worker panic. -/
def joinWorkers : List (Option (List FileWordCount)) → Option (List FileWordCount)
  | [] => some []
  | none :: _ => none
  | some infos :: rest => (joinWorkers rest).map (fun acc => infos ++ acc)

/-- The parallel phase of `main`: partition the tasks over `w` workers, run
every worker, join in spawn order. -/
def runBatch (tasks : List FileTask) (w : Nat) : Option (List FileWordCount) :=
  joinWorkers ((split_vec tasks w).map workerRun)

/-- The running `total_word_count` accumulated by the join loop. -/
def totalFold (rs : List FileWordCount) : Nat :=
  rs.foldl (fun acc r => acc + r.word_count) 0

/-- Observable outcome of a run: `success reported reportedTotal` is a
zero exit code after printing one line per element of `reported` and — when
`reportedTotal = some t` — a final total line for `t`; `reportedTotal = none`
means the process exited before any total line.  `panicAbort` is a process
abort through an uncaught panic, with a non-zero exit code. -/
inductive ExitOutcome where
  | success (reported : List FileWordCount) (reportedTotal : Option Nat)
  | panicAbort
deriving DecidableEq

/-- `main` after discovery (main.rs:220-255), applied to the discovered
tasks. -/
def mainRun (tasks : List FileTask) (w : Nat) : ExitOutcome :=
  if tasks.length = 0 then ExitOutcome.success [] none
  else
    match runBatch tasks w with
    | none => ExitOutcome.panicAbort
    | some rs => ExitOutcome.success rs (some (totalFold rs))

theorem splitVecGo_nil (chunkSize fuel : Nat) :
    splitVecGo chunkSize fuel ([] : List α) = [] := by
  cases fuel <;> rfl

theorem splitVecGo_cons (chunkSize fuel : Nat) (x : α) (xs : List α) :
    splitVecGo chunkSize (fuel + 1) (x :: xs) =
      (x :: xs).take (min chunkSize (x :: xs).length) ::
        splitVecGo chunkSize fuel ((x :: xs).drop (min chunkSize (x :: xs).length)) := rfl

/-- Joining the chunks produced by the loop gives back the input, for any fuel
and any chunk size. -/
theorem splitVecGo_join (chunkSize : Nat) :
    ∀ (fuel : Nat) (v : List α), (splitVecGo chunkSize fuel v).flatten = v := by
  intro fuel
  induction fuel with
  | zero =>
    intro v
    cases v with
    | nil => rfl
    | cons x xs => simp [splitVecGo]
  | succ fuel ih =>
    intro v
    cases v with
    | nil => rfl
    | cons x xs =>
      rw [splitVecGo_cons]
      simp [ih]

/-- Helper form of partition completeness used by the scheduler lemmas. -/
theorem split_vec_join (v : List α) (n : Nat) : (split_vec v n).flatten = v := by
  unfold split_vec
  by_cases h : n = 0 ∨ v.length = 0
  · rw [if_pos h]
    simp
  · rw [if_neg h]
    exact splitVecGo_join _ _ _

/-- Shape of the chunks produced by the loop: when the chunk size is positive
and the fuel covers the input, every chunk is nonempty and at most chunk-sized,
every chunk but the last is exactly chunk-sized, and the number of chunks `k`
satisfies `(k-1)*chunkSize < length ≤ k*chunkSize` (i.e. `k = ceil(length /
chunkSize)`). -/
theorem splitVecGo_shape (chunkSize : Nat) (hcs : 1 ≤ chunkSize) :
    ∀ (fuel : Nat) (v : List α), v.length ≤ fuel →
      (∀ c ∈ splitVecGo chunkSize fuel v, c ≠ [] ∧ c.length ≤ chunkSize) ∧
      (∀ c ∈ (splitVecGo chunkSize fuel v).dropLast, c.length = chunkSize) ∧
      v.length ≤ (splitVecGo chunkSize fuel v).length * chunkSize ∧
      (splitVecGo chunkSize fuel v).length * chunkSize < v.length + chunkSize := by
  intro fuel
  induction fuel with
  | zero =>
    intro v hv
    have hvnil : v = [] := List.length_eq_zero.mp (Nat.le_zero.mp hv)
    subst hvnil
    rw [splitVecGo_nil]
    refine ⟨by simp, by simp, by simp, by simpa using hcs⟩
  | succ fuel ih =>
    intro v hv
    cases v with
    | nil =>
      rw [splitVecGo_nil]
      refine ⟨by simp, by simp, by simp, by simpa using hcs⟩
    | cons x xs =>
      rw [splitVecGo_cons]
      have hlen : 0 < (x :: xs).length := by simp
      have htk1 : 1 ≤ min chunkSize (x :: xs).length := le_min hcs hlen
      have htkle : min chunkSize (x :: xs).length ≤ (x :: xs).length := min_le_right _ _
      have htkcs : min chunkSize (x :: xs).length ≤ chunkSize := min_le_left _ _
      have htakelen :
          ((x :: xs).take (min chunkSize (x :: xs).length)).length =
            min chunkSize (x :: xs).length := by
        rw [List.length_take]
        exact min_eq_left htkle
      have hdroplen :
          ((x :: xs).drop (min chunkSize (x :: xs).length)).length =
            (x :: xs).length - min chunkSize (x :: xs).length :=
        List.length_drop _ _
      have hfuel' :
          ((x :: xs).drop (min chunkSize (x :: xs).length)).length ≤ fuel := by
        rw [hdroplen]
        omega
      obtain ⟨ih1, ih2, ih3, ih4⟩ := ih ((x :: xs).drop (min chunkSize (x :: xs).length)) hfuel'
      refine ⟨?_, ?_, ?_, ?_⟩
      · intro c hc
        rcases List.mem_cons.mp hc with hc | hc
        · subst hc
          constructor
          · intro hnil
            rw [hnil] at htakelen
            simp at htakelen
            omega
          · rw [htakelen]
            exact htkcs
        · exact ih1 c hc
      · cases hL : splitVecGo chunkSize fuel ((x :: xs).drop (min chunkSize (x :: xs).length)) with
        | nil => simp [hL]
        | cons y ys =>
          rw [List.dropLast_cons₂]
          intro c hc
          rcases List.mem_cons.mp hc with hc | hc
          · subst hc
            rw [htakelen]
            -- the rest of the list is nonempty, so the loop did not take a
            -- short final chunk here: the minimum is the chunk size itself
            have hrestne : (x :: xs).drop (min chunkSize (x :: xs).length) ≠ [] := by
              intro hnil
              rw [hnil, splitVecGo_nil] at hL
              exact List.noConfusion hL
            have hrestpos :
                0 < ((x :: xs).drop (min chunkSize (x :: xs).length)).length :=
              List.length_pos.mpr hrestne
            omega
          · exact ih2 c (by rw [hL]; exact hc)
      · have hconslen :
            ((x :: xs).take (min chunkSize (x :: xs).length) ::
                splitVecGo chunkSize fuel
                  ((x :: xs).drop (min chunkSize (x :: xs).length))).length =
              (splitVecGo chunkSize fuel
                  ((x :: xs).drop (min chunkSize (x :: xs).length))).length + 1 :=
          List.length_cons _ _
        rw [hconslen, Nat.add_mul, Nat.one_mul]
        have hsplit :
            (x :: xs).length =
              min chunkSize (x :: xs).length +
                ((x :: xs).drop (min chunkSize (x :: xs).length)).length := by
          rw [hdroplen]; omega
        linarith [ih3, htkcs]
      · have hconslen :
            ((x :: xs).take (min chunkSize (x :: xs).length) ::
                splitVecGo chunkSize fuel
                  ((x :: xs).drop (min chunkSize (x :: xs).length))).length =
              (splitVecGo chunkSize fuel
                  ((x :: xs).drop (min chunkSize (x :: xs).length))).length + 1 :=
          List.length_cons _ _
        rw [hconslen, Nat.add_mul, Nat.one_mul]
        have hsplit :
            (x :: xs).length =
              min chunkSize (x :: xs).length +
                ((x :: xs).drop (min chunkSize (x :: xs).length)).length := by
          rw [hdroplen]; omega
        by_cases htkeq : min chunkSize (x :: xs).length = chunkSize
        · linarith [ih4]
        · -- the minimum fell short of the chunk size, so it is the whole
          -- remaining length: the loop stops after this final chunk
          have htkall : min chunkSize (x :: xs).length = (x :: xs).length := by
            omega
          have hrestnil : (x :: xs).drop (min chunkSize (x :: xs).length) = [] := by
            apply List.eq_nil_of_length_eq_zero
            rw [hdroplen, htkall]
            omega
          rw [hrestnil, splitVecGo_nil]
          simp only [List.length_nil, Nat.zero_mul, Nat.zero_add, List.length_cons]
          omega

/-- C5 (corrected): called on a nonempty list with `n ≥ 1` workers, `split_vec`
produces contiguous chunks of size `chunkSize = ceil(len / n)`; every chunk is
nonempty (no empty chunks are ever emitted), every chunk but the last has
exactly `chunkSize` elements, the number `k` of chunks satisfies
`(k-1)*chunkSize < len ≤ k*chunkSize` (so `k = ceil(len / chunkSize)`), and
`k ≤ n` — but `k` can be strictly less than `n`, contrary to the claim that
exactly `n` chunks are produced. -/
theorem split_vec_chunk_shape (v : List α) (n : Nat) (hv : v ≠ []) (hn : 1 ≤ n) :
    (∀ c ∈ split_vec v n, c ≠ [] ∧ c.length ≤ (v.length + n - 1) / n) ∧
    (∀ c ∈ (split_vec v n).dropLast, c.length = (v.length + n - 1) / n) ∧
    v.length ≤ (split_vec v n).length * ((v.length + n - 1) / n) ∧
    (split_vec v n).length * ((v.length + n - 1) / n) <
      v.length + (v.length + n - 1) / n ∧
    (split_vec v n).length ≤ n := by
  have hvlen : 0 < v.length := List.length_pos.mpr hv
  have hcond : ¬(n = 0 ∨ v.length = 0) := by omega
  have hsv : split_vec v n = splitVecGo ((v.length + n - 1) / n) v.length v := by
    unfold split_vec
    rw [if_neg hcond]
  have hcs : 1 ≤ (v.length + n - 1) / n := by
    rw [Nat.le_div_iff_mul_le (by omega : 0 < n)]
    omega
  obtain ⟨h1, h2, h3, h4⟩ :=
    splitVecGo_shape ((v.length + n - 1) / n) hcs v.length v (Nat.le_refl _)
  rw [hsv]
  refine ⟨h1, h2, h3, h4, ?_⟩
  -- k ≤ n: a ceiling division of the length by a chunk size that is itself
  -- the ceiling of length / n can need at most n chunks
  have hdm := Nat.div_add_mod (v.length + n - 1) n
  have hmod : (v.length + n - 1) % n < n := Nat.mod_lt _ (by omega)
  have hncs : v.length ≤ n * ((v.length + n - 1) / n) := by omega
  by_contra hgt
  push_neg at hgt
  have hstep : (n + 1) * ((v.length + n - 1) / n) ≤
      (splitVecGo ((v.length + n - 1) / n) v.length v).length *
        ((v.length + n - 1) / n) :=
    Nat.mul_le_mul_right _ (by omega)
  rw [Nat.add_mul, Nat.one_mul] at hstep
  rw [Nat.mul_comm] at hncs
  linarith [h4, hstep, hncs]

/-- Closed instance used by `split_vec_chunk_shape`. -/
theorem split_vec_chunk_shape_witness :
    ([1, 2, 3, 4, 5, 6, 7] : List Nat) ≠ [] ∧ 1 ≤ 3 ∧
      ((∀ c ∈ split_vec ([1, 2, 3, 4, 5, 6, 7] : List Nat) 3,
          c ≠ [] ∧ c.length ≤ (([1, 2, 3, 4, 5, 6, 7] : List Nat).length + 3 - 1) / 3) ∧
        (∀ c ∈ (split_vec ([1, 2, 3, 4, 5, 6, 7] : List Nat) 3).dropLast,
          c.length = (([1, 2, 3, 4, 5, 6, 7] : List Nat).length + 3 - 1) / 3) ∧
        ([1, 2, 3, 4, 5, 6, 7] : List Nat).length ≤
          (split_vec ([1, 2, 3, 4, 5, 6, 7] : List Nat) 3).length *
            ((([1, 2, 3, 4, 5, 6, 7] : List Nat).length + 3 - 1) / 3) ∧
        (split_vec ([1, 2, 3, 4, 5, 6, 7] : List Nat) 3).length *
            ((([1, 2, 3, 4, 5, 6, 7] : List Nat).length + 3 - 1) / 3) <
          ([1, 2, 3, 4, 5, 6, 7] : List Nat).length +
            (([1, 2, 3, 4, 5, 6, 7] : List Nat).length + 3 - 1) / 3 ∧
        (split_vec ([1, 2, 3, 4, 5, 6, 7] : List Nat) 3).length ≤ 3) :=
  ⟨by decide, by decide,
    split_vec_chunk_shape ([1, 2, 3, 4, 5, 6, 7] : List Nat) 3 (by decide) (by decide)⟩

/-- C5 counterexample: with 5 tasks and 4 workers the chunk size is
`ceil(5/4) = 2` and the loop emits only 3 chunks, not the 4 chunks the claim
requires (`N ≥ W`, so no chunk may be empty under the claim either). -/
theorem split_vec_chunk_count_counterexample :
    split_vec ([1, 2, 3, 4, 5] : List Nat) 4 = [[1, 2], [3, 4], [5]] ∧
    (split_vec ([1, 2, 3, 4, 5] : List Nat) 4).length ≠ 4 := by
  constructor <;> decide

/-- C6: partition completeness — the concatenation of the chunks produced by
`split_vec` is the original task list (each task appears in exactly one chunk,
in the original order), and in particular the chunk lengths sum to the length
of the task list. -/
theorem split_vec_partition_complete (v : List α) (n : Nat) :
    (split_vec v n).flatten = v ∧
    ((split_vec v n).map List.length).sum = v.length := by
  refine ⟨split_vec_join v n, ?_⟩
  rw [← List.length_flatten, split_vec_join]

/-- C10: the boundary cases the spec leaves out are total — with worker count
0, or an empty task list, `split_vec` performs no division and returns one
chunk holding the whole (possibly empty) input. -/
theorem split_vec_boundary_total (v : List α) (n : Nat) :
    split_vec v 0 = [v] ∧ split_vec ([] : List α) n = [[]] := by
  constructor
  · unfold split_vec
    rw [if_pos (Or.inl rfl)]
  · unfold split_vec
    simp

/-- Every character that survives the splitter is a non-whitespace character
(provided the accumulator holds none). -/
theorem splitWsAux_no_ws (s : List Char) :
    ∀ (acc : List Char), (∀ c ∈ acc, isUnicodeWhitespace c = false) →
      ∀ c ∈ (splitWsAux acc s).flatten, isUnicodeWhitespace c = false := by
  induction s with
  | nil =>
    intro acc hacc c hc
    unfold splitWsAux at hc
    by_cases h : acc = []
    · rw [if_pos h] at hc
      simp at hc
    · rw [if_neg h] at hc
      simp at hc
      exact hacc c hc
  | cons x xs ih =>
    intro acc hacc c hc
    unfold splitWsAux at hc
    by_cases hx : isUnicodeWhitespace x
    · rw [if_pos hx] at hc
      rw [List.flatten_append] at hc
      rcases List.mem_append.mp hc with hc | hc
      · by_cases h : acc = []
        · rw [if_pos h] at hc
          simp at hc
        · rw [if_neg h] at hc
          simp at hc
          exact hacc c hc
      · exact ih [] (by simp) c hc
    · rw [if_neg hx] at hc
      refine ih (x :: acc) ?_ c hc
      intro d hd
      rcases List.mem_cons.mp hd with hd | hd
      · subst hd
        exact Bool.of_not_eq_true hx
      · exact hacc d hd

/-- On whitespace-free input the splitter returns the input as its single
token (or no token at all when both accumulator and input are empty). -/
theorem splitWsAux_no_ws_input (s : List Char) :
    ∀ (acc : List Char), (∀ c ∈ s, isUnicodeWhitespace c = false) →
      splitWsAux acc s = if acc = [] ∧ s = [] then [] else [acc.reverse ++ s] := by
  induction s with
  | nil =>
    intro acc hs
    unfold splitWsAux
    by_cases h : acc = []
    · rw [if_pos h, if_pos ⟨h, rfl⟩]
    · rw [if_neg h, if_neg (by simp [h])]
      simp
  | cons x xs ih =>
    intro acc hs
    unfold splitWsAux
    have hx : isUnicodeWhitespace x = false := hs x (List.mem_cons_self x xs)
    rw [if_neg (by simp [hx])]
    rw [ih (x :: acc) (fun c hc => hs c (List.mem_cons_of_mem x hc))]
    rw [if_neg (by simp), if_neg (by simp)]
    simp

/-- Removing whitespace from an already whitespace-free text is the
identity. -/
theorem removeWhitespace_of_no_ws (s : List Char)
    (hs : ∀ c ∈ s, isUnicodeWhitespace c = false) :
    removeWhitespace s = s := by
  unfold removeWhitespace splitWhitespace
  rw [splitWsAux_no_ws_input s [] hs]
  by_cases h : s = []
  · rw [if_pos ⟨rfl, h⟩]
    rw [h]
    rfl
  · rw [if_neg (by simp [h])]
    simp

/-- The whitespace-removal rule of `html_word_count` is idempotent. -/
theorem removeWhitespace_idem (s : List Char) :
    removeWhitespace (removeWhitespace s) = removeWhitespace s :=
  removeWhitespace_of_no_ws _ (splitWsAux_no_ws s [] (by simp))

/-- C1: `html_word_count` counts the Unicode scalar values of the string
obtained by splitting the extracted text on Unicode whitespace, discarding the
separators and concatenating the tokens with no separator; the
whitespace-removal rule is idempotent, so recounting an already
whitespace-free text changes nothing. -/
theorem html_word_count_spec (extractedText : List Char) :
    html_word_count extractedText = (splitWhitespace extractedText).flatten.length ∧
    removeWhitespace (removeWhitespace extractedText) = removeWhitespace extractedText ∧
    html_word_count (removeWhitespace extractedText) = html_word_count extractedText := by
  refine ⟨rfl, removeWhitespace_idem extractedText, ?_⟩
  unfold html_word_count
  rw [removeWhitespace_idem extractedText]

/-- C2 counterexample: the code compares the full entry name against
`toc.xhtml`/`toc.html`, not the base name, so the navigation document
`OEBPS/toc.xhtml` — excluded under the claim's base-name reading — is accepted
and its text is extracted and counted. -/
theorem entry_filter_prefix_counterexample :
    entryMatches "OEBPS/toc.xhtml" = true ∧
    entryMatchesByBaseName "OEBPS/toc.xhtml" = false ∧
    zip_xhtml_read (Archive.entries
        [⟨"OEBPS/toc.xhtml", true, "Chapter One".data⟩]) =
      some ["Chapter One".data] := by
  refine ⟨by decide, by decide, by decide⟩

/-- C2 (amended): for every archive entry, the filter accepts the entry iff
its name ends in `.xhtml` or `.html` and its full name (directory prefix
included) is not exactly `toc.xhtml` or `toc.html`, matched case-sensitively;
on an archive whose matched entries all decode, `zip_xhtml_read` extracts
precisely the accepted entries, in order, and the file's count sums exactly
their counts — excluded entries contribute zero. -/
theorem zip_xhtml_read_filter (es : List ZipEntry)
    (h : ∀ e ∈ es, e.decodes = true) :
    zip_xhtml_read (Archive.entries es) =
      some ((es.filter (fun e => entryMatches e.name)).map (fun e => e.content)) ∧
    get_epub_word_count (Archive.entries es) =
      some (((es.filter (fun e => entryMatches e.name)).map
        (fun e => html_word_count e.content)).sum) := by
  have hread : readEntries es =
      some ((es.filter (fun e => entryMatches e.name)).map (fun e => e.content)) := by
    induction es with
    | nil => rfl
    | cons e rest ih =>
      have he : e.decodes = true := h e (List.mem_cons_self e rest)
      have hrest := ih (fun d hd => h d (List.mem_cons_of_mem e hd))
      unfold readEntries
      by_cases hm : entryMatches e.name
      · rw [if_pos hm, if_pos he, hrest]
        rw [List.filter_cons_of_pos (by simpa using hm)]
        rfl
      · rw [if_neg hm, hrest]
        rw [List.filter_cons_of_neg (by simpa using hm)]
  constructor
  · exact hread
  · have hz : zip_xhtml_read (Archive.entries es) = readEntries es := rfl
    unfold get_epub_word_count
    rw [hz, hread]
    simp only [Option.map_some', List.map_map]
    rfl

/-- Closed instance used by `zip_xhtml_read_filter`: a root-level `toc.xhtml`
entry contributes zero even though it holds text, while `chapter1.xhtml` with
extracted text `  hello   world  ` contributes the 10 Unicode scalar values of
`helloworld`. -/
theorem zip_xhtml_read_filter_witness :
    (∀ e ∈ [(⟨"toc.xhtml", true, "Chapter One Chapter Two".data⟩ : ZipEntry),
        ⟨"chapter1.xhtml", true, "  hello   world  ".data⟩], e.decodes = true) ∧
    get_epub_word_count (Archive.entries
        [⟨"toc.xhtml", true, "Chapter One Chapter Two".data⟩,
         ⟨"chapter1.xhtml", true, "  hello   world  ".data⟩]) = some 10 := by
  constructor
  · decide
  · rw [(zip_xhtml_read_filter
        [⟨"toc.xhtml", true, "Chapter One Chapter Two".data⟩,
         ⟨"chapter1.xhtml", true, "  hello   world  ".data⟩] (by decide)).2]
    decide

/-- C3: a qualifying entry whose payload fails to decode makes
`read_to_string(..).expect(..)` panic and abort the whole read — the other
entries of the same archive are not extracted (first conjunct), although those
entries decode fine when the failing entry is absent (second conjunct).  The
claim's recoverable skip-and-continue behaviour is the spec's stated intent
(its error-taxonomy and redesign notes), which the code contradicts. -/
theorem decode_failure_aborts :
    zip_xhtml_read (Archive.entries
        [⟨"ch1.xhtml", true, "first".data⟩,
         ⟨"ch2.xhtml", false, []⟩,
         ⟨"ch3.xhtml", true, "third".data⟩]) = none ∧
    zip_xhtml_read (Archive.entries
        [⟨"ch1.xhtml", true, "first".data⟩,
         ⟨"ch3.xhtml", true, "third".data⟩]) =
      some ["first".data, "third".data] := by
  constructor <;> decide

theorem workerRun_cons (f : FileTask) (rest : List FileTask) :
    workerRun (f :: rest) =
      match get_epub_word_count f.archive with
      | none => none
      | some c =>
          (workerRun rest).map
            (fun infos => (⟨f.filename, c⟩ : FileWordCount) :: infos) := rfl

theorem workerRun_append (a b : List FileTask) :
    workerRun (a ++ b) =
      (workerRun a).bind (fun ra => (workerRun b).map (fun rb => ra ++ rb)) := by
  induction a with
  | nil =>
    cases hb : workerRun b <;> simp [workerRun, hb]
  | cons f a' ih =>
    rw [List.cons_append, workerRun_cons, workerRun_cons]
    cases hc : get_epub_word_count f.archive with
    | none => rfl
    | some c =>
      rw [ih]
      cases ha : workerRun a' with
      | none => rfl
      | some ra =>
        cases hb : workerRun b <;> simp

/-- Joining the per-chunk worker results in spawn order is the same as one
worker processing the concatenation of the chunks. -/
theorem joinWorkers_flatten (chunks : List (List FileTask)) :
    joinWorkers (chunks.map workerRun) = workerRun chunks.flatten := by
  induction chunks with
  | nil => rfl
  | cons c cs ih =>
    rw [List.map_cons, List.flatten_cons, workerRun_append]
    cases hc : workerRun c with
    | none => rfl
    | some rc =>
      unfold joinWorkers
      rw [ih]
      cases hrest : workerRun cs.flatten <;> simp

/-- However the tasks are partitioned, the joined batch behaves like a single
worker processing the whole task list in order. -/
theorem runBatch_eq_workerRun (tasks : List FileTask) (w : Nat) :
    runBatch tasks w = workerRun tasks := by
  unfold runBatch
  rw [joinWorkers_flatten, split_vec_join]

theorem totalFold_eq_sum (rs : List FileWordCount) :
    totalFold rs = (rs.map (fun r => r.word_count)).sum := by
  unfold totalFold
  have h : ∀ (l : List FileWordCount) (n : Nat),
      l.foldl (fun acc r => acc + r.word_count) n =
        n + (l.map (fun r => r.word_count)).sum := by
    intro l
    induction l with
    | nil => intro n; simp
    | cons x xs ih => intro n; simp [ih, Nat.add_assoc]
  simpa using h rs 0

/-- C7: the per-file results and the grand total are independent of the
worker count — any `w` produces the very same result list (so in particular
the same multiset of filenames and counts) and the same printed outcome as
`w = 1`, and the accumulated running total always equals the sum of the
per-file counts. -/
theorem worker_count_invariance (tasks : List FileTask) (w : Nat) :
    runBatch tasks w = runBatch tasks 1 ∧
    mainRun tasks w = mainRun tasks 1 ∧
    ∀ rs : List FileWordCount,
      totalFold rs = (rs.map (fun r => r.word_count)).sum := by
  refine ⟨?_, ?_, fun rs => totalFold_eq_sum rs⟩
  · rw [runBatch_eq_workerRun, runBatch_eq_workerRun]
  · unfold mainRun
    rw [runBatch_eq_workerRun, runBatch_eq_workerRun]

/-- C9: the report order is deterministic and equals the discovery order of
the tasks — each worker preserves its chunk's input order and `main` joins the
workers in spawn (task-submission) order, so whenever every file processes
without a panic, the joined report is exactly the task list mapped to its
per-file counts, in the original order, for every worker count. -/
theorem report_order_deterministic (tasks : List FileTask) (w : Nat)
    (h : ∀ t ∈ tasks, (get_epub_word_count t.archive).isSome) :
    runBatch tasks w =
      some (tasks.map (fun t =>
        (⟨t.filename, (get_epub_word_count t.archive).getD 0⟩ : FileWordCount))) := by
  rw [runBatch_eq_workerRun]
  induction tasks with
  | nil => rfl
  | cons t rest ih =>
    have ht := h t (List.mem_cons_self t rest)
    obtain ⟨c, hc⟩ := Option.isSome_iff_exists.mp ht
    rw [workerRun_cons, hc, ih (fun d hd => h d (List.mem_cons_of_mem t hd))]
    simp [hc]

/-- Closed instance used by `report_order_deterministic`. -/
theorem report_order_deterministic_witness :
    (∀ t ∈ [(⟨"a.epub", Archive.entries [⟨"ch1.xhtml", true, "one two".data⟩]⟩ : FileTask),
        ⟨"b.epub", Archive.entries [⟨"ch1.xhtml", true, "三 四".data⟩]⟩,
        ⟨"c.epub", Archive.entries []⟩],
      (get_epub_word_count t.archive).isSome) ∧
    runBatch
        [⟨"a.epub", Archive.entries [⟨"ch1.xhtml", true, "one two".data⟩]⟩,
         ⟨"b.epub", Archive.entries [⟨"ch1.xhtml", true, "三 四".data⟩]⟩,
         ⟨"c.epub", Archive.entries []⟩] 2 =
      some [⟨"a.epub", 6⟩, ⟨"b.epub", 2⟩, ⟨"c.epub", 0⟩] := by
  constructor
  · decide
  · rw [report_order_deterministic
        [⟨"a.epub", Archive.entries [⟨"ch1.xhtml", true, "one two".data⟩]⟩,
         ⟨"b.epub", Archive.entries [⟨"ch1.xhtml", true, "三 四".data⟩]⟩,
         ⟨"c.epub", Archive.entries []⟩] 2 (by decide)]
    decide

/-- C4: one invalid archive among valid ones does not leave the other files'
counts reported under a zero exit code — the worker that meets it panics at
`ZipArchive::new(..).expect(..)`, `join().unwrap()` re-raises the panic in the
main thread, and the process aborts with a non-zero exit before the total is
printed (first conjunct); the same batch without the corrupt file reports both
valid counts and their sum under exit code 0 (second conjunct).  The claim's
warn-record-zero-and-continue behaviour is the spec's stated intent (its error
taxonomy), which the code contradicts. -/
theorem invalid_archive_aborts_batch :
    mainRun
        [⟨"a.epub", Archive.entries [⟨"ch1.xhtml", true, "one two".data⟩]⟩,
         ⟨"bad.epub", Archive.invalid⟩,
         ⟨"c.epub", Archive.entries [⟨"ch1.xhtml", true, "five".data⟩]⟩] 3 =
      ExitOutcome.panicAbort ∧
    mainRun
        [⟨"a.epub", Archive.entries [⟨"ch1.xhtml", true, "one two".data⟩]⟩,
         ⟨"c.epub", Archive.entries [⟨"ch1.xhtml", true, "five".data⟩]⟩] 2 =
      ExitOutcome.success [⟨"a.epub", 6⟩, ⟨"c.epub", 4⟩] (some 10) := by
  constructor <;> decide

/-- C8 counterexample: with zero discovered files the program exits 0 without
reporting any total (so no reported total of 0), and a non-zero exit arises
without any argument-parsing failure — a single unreadable archive panics the
run. -/
theorem exit_behavior_counterexample :
    mainRun [] 4 ≠ ExitOutcome.success [] (some 0) ∧
    mainRun [⟨"bad.epub", Archive.invalid⟩] 1 = ExitOutcome.panicAbort := by
  constructor <;> decide

/-- C8 (amended): when discovery yields zero candidate files the program
emits its informational message and exits successfully with code 0, for every
worker count, but without printing a total line; and a non-zero exit code is
not reserved to argument-parsing failure — an uncaught worker panic (such as
an invalid archive) also aborts the process with a non-zero exit. -/
theorem empty_discovery_exits_zero (w : Nat) :
    mainRun [] w = ExitOutcome.success [] none ∧
    mainRun [⟨"corrupt.epub", Archive.invalid⟩] 2 = ExitOutcome.panicAbort := by
  constructor
  · rfl
  · decide
